import Mathlib

/-!
Shallow embedding of the `raml_spec` crate: a parser extracting a typed
`RamlSpec` document from a YAML tree.

Source layout:
  src/lib.rs  — `RamlSpec`, `RamlSpec::from_reader`, `ParseError`,
                module `protocol` (`Protocol`, `ProtocolParseError`,
                `impl TryFrom<Yaml> for Protocol`)
  src/uri.rs  — `Uri`, `ParseError` (`InvalidSyntax`), `impl FromStr for Uri`,
                `Uri::parsed`

External collaborators (third-party crates, modelled parametrically or by
their documented semantics):
  yaml_rust : the `Yaml` node type, `Yaml::as_str`, `Yaml::as_vec`, and
              `Index<&str> for Yaml` are embedded directly from their
              definitions; `YamlLoader::load_from_str` is kept abstract as a
              function parameter `loadFromStr`.
  uriparse  : `URI::try_from(&str)` is kept abstract as a function parameter
              `parseUri : String → Except String π` (the success payload type
              `π` is irrelevant to the claims, which only concern success or
              failure of the parse and the raw text stored).
-/

/-- The `yaml_rust` crate `Yaml` node type:
`Real(String) | Integer(i64) | String(String) | Boolean(bool) |
 Array(Vec<Yaml>) | Hash(LinkedHashMap<Yaml,Yaml>) | Alias(usize) |
 Null | BadValue`.  The hash is modelled as an association list (the loader
never produces duplicate keys; lookup takes the first match). -/
inductive Yaml where
  | real (s : String)
  | integer (i : Int)
  | string (s : String)
  | boolean (b : Bool)
  | array (elems : List Yaml)
  | hash (entries : List (Yaml × Yaml))
  | anchorAlias (id : Nat)
  | null
  | badValue

/-- `Yaml::as_str`: `Some(v)` on a `String` node, `None` otherwise. -/
def Yaml.as_str : Yaml → Option String
  | .string s => some s
  | _ => none

/-- `Yaml::as_vec`: `Some(v)` on an `Array` node, `None` otherwise. -/
def Yaml.as_vec : Yaml → Option (List Yaml)
  | .array xs => some xs
  | _ => none

/-- Whether a stored hash key equals the lookup key `Yaml::String(name)`.
`yaml_rust` indexes with `h.get(&Yaml::String(idx.to_owned()))` under the
derived `Eq`, which holds exactly when the stored key is a `String` node with
the same text. -/
def Yaml.keyMatches (name : String) : Yaml → Bool
  | .string s => s == name
  | _ => false

/-- `Index<&str> for Yaml`: on a `Hash`, `get` of the key
`Yaml::String(name)` defaulting to `BadValue` when absent; on any non-hash
node the result is `BadValue`. -/
def Yaml.index (y : Yaml) (name : String) : Yaml :=
  match y with
  | .hash kvs =>
    match kvs.find? (fun kv => Yaml.keyMatches name kv.1) with
    | some kv => kv.2
    | none => .badValue
  | _ => .badValue

/-- `protocol::Protocol`: closed enumeration `{Http, Https}`. -/
inductive Protocol where
  | http
  | https
deriving DecidableEq

/-- `protocol::ProtocolParseError`:
`UnsupportedProtocol(String) | InvalidYamlValue`. -/
inductive ProtocolParseError where
  | unsupportedProtocol (s : String)
  | invalidYamlValue
deriving DecidableEq

/-- `impl TryFrom<Yaml> for Protocol`: a `String` node equal to `"HTTP"` maps
to `Http`, equal to `"HTTPS"` maps to `Https`, any other string to
`UnsupportedProtocol` carrying that string, any non-string node to
`InvalidYamlValue`. -/
def Protocol.tryFrom : Yaml → Except ProtocolParseError Protocol
  | .string p =>
    if p = "HTTP" then .ok .http
    else if p = "HTTPS" then .ok .https
    else .error (.unsupportedProtocol p)
  | _ => .error .invalidYamlValue

/-- `uri::ParseError`: `InvalidSyntax` wrapping the `uriparse` diagnostic
(modelled as its rendered text). -/
inductive UriParseError where
  | invalidSyntax (diagnostic : String)
deriving DecidableEq

/-- `uri::Uri`: wraps the raw textual form of a validated URI. -/
structure Uri where
  raw : String
deriving DecidableEq

/-- `impl FromStr for Uri`: run the external `uriparse` conversion
(`parseUri`) on the input, discard its structured result, and on success
store the input text unchanged; on failure wrap the diagnostic in
`InvalidSyntax`. -/
def Uri.fromStr (π : Type) (parseUri : String → Except String π)
    (raw : String) : Except UriParseError Uri :=
  match parseUri raw with
  | .error e => .error (.invalidSyntax e)
  | .ok _ => .ok ⟨raw⟩

/-- `Uri::parsed`: re-derive the structured view from the stored text by
running the same external conversion again; the Rust code unwraps the result
with `expect("Failed to parse.")`, so the `none` branch here models the
panic. -/
def Uri.parsed (π : Type) (parseUri : String → Except String π)
    (u : Uri) : Option π :=
  match parseUri u.raw with
  | .ok p => some p
  | .error _ => none

/-- `ParseError` of `lib.rs`: the five terminal failure classes.  The
diagnostics of the wrapped external errors are modelled as rendered text. -/
inductive ParseError where
  | fieldNotFound (name : String)
  | incorrectYamlSyntax (diagnostic : String)
  | fileIsEmpty
  | incorrectUri (e : UriParseError)
  | incorrectProtocol (e : ProtocolParseError)
deriving DecidableEq

/-- `RamlSpec`: the typed document.  The Rust `HashSet<Protocol>` is
modelled as a `Finset Protocol` (unordered, duplicates collapsed). -/
structure RamlSpec where
  title : String
  description : Option String
  version : Option String
  base_uri : Option Uri
  protocols : Option (Finset Protocol)
deriving DecidableEq

/-- The `protocols.iter().cloned().map(Protocol::try_from)
.collect::<Result<HashSet<_>, _>>()` step: convert every element, stopping
at the first failure, and gather the successes into a set. -/
def collectProtocols : List Yaml → Except ProtocolParseError (Finset Protocol)
  | [] => .ok ∅
  | y :: ys =>
    match Protocol.tryFrom y with
    | .error e => .error e
    | .ok p =>
      match collectProtocols ys with
      | .error e => .error e
      | .ok s => .ok (insert p s)

/-- The `base_uri` field expression of `from_reader`:
`yaml[BASE_URI].as_str().map(FromStr::from_str).transpose()?`, with the
`uri::ParseError` lifted into `ParseError::IncorrectUri` by `#[from]`. -/
def baseUriField (π : Type) (parseUri : String → Except String π)
    (yaml : Yaml) : Except ParseError (Option Uri) :=
  match (yaml.index "baseUri").as_str with
  | none => .ok none
  | some s =>
    match Uri.fromStr π parseUri s with
    | .ok u => .ok (some u)
    | .error e => .error (.incorrectUri e)

/-- The `protocols` field expression of `from_reader`:
`yaml[PROTOCOLS].as_vec().map(|protocols| ...collect...).transpose()?`, with
`ProtocolParseError` lifted into `ParseError::IncorrectProtocol`. -/
def protocolsField (yaml : Yaml) :
    Except ParseError (Option (Finset Protocol)) :=
  match (yaml.index "protocols").as_vec with
  | none => .ok none
  | some l =>
    match collectProtocols l with
    | .ok s => .ok (some s)
    | .error e => .error (.incorrectProtocol e)

/-- The struct-literal body of `RamlSpec::from_reader` applied to the first
decoded document.  Rust evaluates struct-expression fields in source order
(`title`, `description`, `version`, `base_uri`, `protocols`), so a `?`
failure on `title` precedes one on `base_uri`, which precedes one on
`protocols`; `description` and `version` are infallible. -/
def RamlSpec.fromYaml (π : Type) (parseUri : String → Except String π)
    (yaml : Yaml) : Except ParseError RamlSpec :=
  match (yaml.index "title").as_str with
  | none => .error (.fieldNotFound "title")
  | some title =>
    match baseUriField π parseUri yaml with
    | .error e => .error e
    | .ok base_uri =>
      match protocolsField yaml with
      | .error e => .error e
      | .ok protocols =>
        .ok { title := title
              description := (yaml.index "description").as_str
              version := (yaml.index "version").as_str
              base_uri := base_uri
              protocols := protocols }

/-- `yaml_vec.first().ok_or(ParseError::FileIsEmpty)?` followed by the
struct-literal extraction: an empty decode result is `FileIsEmpty`;
otherwise only the first document is consumed. -/
def RamlSpec.fromYamlDocs (π : Type) (parseUri : String → Except String π)
    (docs : List Yaml) : Except ParseError RamlSpec :=
  match docs with
  | [] => .error .fileIsEmpty
  | y :: _ => RamlSpec.fromYaml π parseUri y

/-- A reader, modelled by its observable effect on `read_to_string`: the
text it appends to the buffer before returning, and the I/O error it
returns, if any (on error, `Read::read_to_string` still leaves the bytes
read so far in the buffer). -/
structure Reader where
  text : String
  ioError : Option String

/-- `RamlSpec::from_reader`: the `Result` of `read_to_string` is bound to
`_` and discarded, so `reader.ioError` is never consulted; the buffer text
is handed to the external `YamlLoader::load_from_str` (abstract parameter
`loadFromStr`), whose `ScanError` is lifted into `IncorrectYamlSyntax`. -/
def RamlSpec.fromReader (π : Type) (parseUri : String → Except String π)
    (loadFromStr : String → Except String (List Yaml))
    (reader : Reader) : Except ParseError RamlSpec :=
  match loadFromStr reader.text with
  | .error e => .error (.incorrectYamlSyntax e)
  | .ok docs => RamlSpec.fromYamlDocs π parseUri docs

lemma baseUriField_none (π : Type) (pu : String → Except String π) (y : Yaml)
    (h : (y.index "baseUri").as_str = none) :
    baseUriField π pu y = .ok none := by
  simp only [baseUriField, h]

lemma baseUriField_some_ok (π : Type) (pu : String → Except String π)
    (y : Yaml) (t : String) (p : π)
    (h : (y.index "baseUri").as_str = some t) (hp : pu t = .ok p) :
    baseUriField π pu y = .ok (some ⟨t⟩) := by
  simp only [baseUriField, h, Uri.fromStr, hp]

lemma baseUriField_some_err (π : Type) (pu : String → Except String π)
    (y : Yaml) (t : String) (e : String)
    (h : (y.index "baseUri").as_str = some t) (hp : pu t = .error e) :
    baseUriField π pu y = .error (.incorrectUri (.invalidSyntax e)) := by
  simp only [baseUriField, h, Uri.fromStr, hp]

lemma baseUriField_ok_inv (π : Type) (pu : String → Except String π)
    (y : Yaml) (b : Option Uri) (h : baseUriField π pu y = .ok b) :
    ((y.index "baseUri").as_str = none ∧ b = none) ∨
      (∃ t p, (y.index "baseUri").as_str = some t ∧ pu t = .ok p ∧
        b = some ⟨t⟩) := by
  cases ha : (y.index "baseUri").as_str with
  | none =>
    simp only [baseUriField, ha] at h
    injection h with h
    exact Or.inl ⟨rfl, h.symm⟩
  | some t =>
    simp only [baseUriField, ha, Uri.fromStr] at h
    cases hp : pu t with
    | error e =>
      simp only [hp] at h
      cases h
    | ok p =>
      simp only [hp] at h
      injection h with h
      exact Or.inr ⟨t, p, rfl, hp, h.symm⟩

lemma protocolsField_none (y : Yaml)
    (h : (y.index "protocols").as_vec = none) :
    protocolsField y = .ok none := by
  simp only [protocolsField, h]

lemma protocolsField_some_ok (y : Yaml) (l : List Yaml) (s : Finset Protocol)
    (h : (y.index "protocols").as_vec = some l)
    (hs : collectProtocols l = .ok s) :
    protocolsField y = .ok (some s) := by
  simp only [protocolsField, h, hs]

lemma protocolsField_some_err (y : Yaml) (l : List Yaml)
    (e : ProtocolParseError)
    (h : (y.index "protocols").as_vec = some l)
    (hs : collectProtocols l = .error e) :
    protocolsField y = .error (.incorrectProtocol e) := by
  simp only [protocolsField, h, hs]

lemma protocolsField_ok_inv (y : Yaml) (ps : Option (Finset Protocol))
    (h : protocolsField y = .ok ps) :
    ((y.index "protocols").as_vec = none ∧ ps = none) ∨
      (∃ l s, (y.index "protocols").as_vec = some l ∧
        collectProtocols l = .ok s ∧ ps = some s) := by
  unfold protocolsField at h
  split at h
  · exact Or.inl ⟨by assumption, by injection h with h; exact h.symm⟩
  · rename_i l hl
    split at h
    · rename_i s hs
      injection h with h
      exact Or.inr ⟨l, s, hl, hs, h.symm⟩
    · cases h

lemma protocolsField_err_inv (y : Yaml) (e : ParseError)
    (h : protocolsField y = .error e) :
    ∃ pe, e = .incorrectProtocol pe := by
  unfold protocolsField at h
  split at h
  · cases h
  · split at h
    · cases h
    · rename_i pe hpe
      injection h with h
      exact ⟨pe, h.symm⟩

lemma fromYaml_ok_build (π : Type) (pu : String → Except String π) (y : Yaml)
    (s : String) (b : Option Uri) (ps : Option (Finset Protocol))
    (ht : (y.index "title").as_str = some s)
    (hb : baseUriField π pu y = .ok b)
    (hp : protocolsField y = .ok ps) :
    RamlSpec.fromYaml π pu y =
      .ok ⟨s, (y.index "description").as_str, (y.index "version").as_str,
        b, ps⟩ := by
  simp only [RamlSpec.fromYaml, ht, hb, hp]

lemma fromYaml_err_title (π : Type) (pu : String → Except String π)
    (y : Yaml) (ht : (y.index "title").as_str = none) :
    RamlSpec.fromYaml π pu y = .error (.fieldNotFound "title") := by
  simp only [RamlSpec.fromYaml, ht]

lemma fromYaml_err_base (π : Type) (pu : String → Except String π)
    (y : Yaml) (s : String) (e : ParseError)
    (ht : (y.index "title").as_str = some s)
    (hb : baseUriField π pu y = .error e) :
    RamlSpec.fromYaml π pu y = .error e := by
  simp only [RamlSpec.fromYaml, ht, hb]

lemma fromYaml_err_proto (π : Type) (pu : String → Except String π)
    (y : Yaml) (s : String) (b : Option Uri) (e : ParseError)
    (ht : (y.index "title").as_str = some s)
    (hb : baseUriField π pu y = .ok b)
    (hp : protocolsField y = .error e) :
    RamlSpec.fromYaml π pu y = .error e := by
  simp only [RamlSpec.fromYaml, ht, hb, hp]

lemma fromYaml_ok_inv (π : Type) (pu : String → Except String π) (y : Yaml)
    (d : RamlSpec) (h : RamlSpec.fromYaml π pu y = .ok d) :
    (y.index "title").as_str = some d.title ∧
    d.description = (y.index "description").as_str ∧
    d.version = (y.index "version").as_str ∧
    baseUriField π pu y = .ok d.base_uri ∧
    protocolsField y = .ok d.protocols := by
  unfold RamlSpec.fromYaml at h
  split at h
  · cases h
  · rename_i s ht
    split at h
    · cases h
    · rename_i b hb
      split at h
      · cases h
      · rename_i ps hp
        injection h with h
        subst h
        exact ⟨ht, rfl, rfl, hb, hp⟩

lemma collectProtocols_mem_ok (l : List Yaml) (s : Finset Protocol)
    (h : collectProtocols l = .ok s) (p : Protocol) :
    p ∈ s ↔ ∃ z, z ∈ l ∧ Protocol.tryFrom z = .ok p := by
  induction l generalizing s with
  | nil =>
    unfold collectProtocols at h
    injection h with h
    subst h
    simp
  | cons y ys ih =>
    unfold collectProtocols at h
    split at h
    · cases h
    · rename_i q hq
      split at h
      · cases h
      · rename_i s0 hs0
        injection h with h
        subst h
        rw [Finset.mem_insert, ih s0 hs0]
        constructor
        · rintro (rfl | ⟨z, hz, hzp⟩)
          · exact ⟨y, List.mem_cons_self y ys, hq⟩
          · exact ⟨z, List.mem_cons_of_mem y hz, hzp⟩
        · rintro ⟨z, hz, hzp⟩
          rcases List.mem_cons.mp hz with rfl | hz2
          · rw [hq] at hzp
            injection hzp with hzp
            exact Or.inl hzp.symm
          · exact Or.inr ⟨z, hz2, hzp⟩

lemma collectProtocols_first_error (l1 : List Yaml) (z : Yaml)
    (l2 : List Yaml) (e : ProtocolParseError)
    (hok : ∀ w ∈ l1, ∃ p, Protocol.tryFrom w = .ok p)
    (hz : Protocol.tryFrom z = .error e) :
    collectProtocols (l1 ++ z :: l2) = .error e := by
  induction l1 with
  | nil =>
    unfold collectProtocols
    simp only [List.nil_append]
    rw [hz]
  | cons w ws ih =>
    obtain ⟨p, hp⟩ := hok w (List.mem_cons_self w ws)
    have ihx := ih (fun u hu => hok u (List.mem_cons_of_mem w hu))
    unfold collectProtocols
    simp only [List.cons_append]
    rw [hp, ihx]

/-- C1: for every decoded tree whose `title` field is a string (and whose
other consumed fields, when present, validate — the `baseUri` text parses
and every `protocols` element converts), extraction succeeds and the title
of the returned document equals that string exactly. -/
theorem title_extraction_exact (π : Type) (pu : String → Except String π)
    (y : Yaml) (s : String)
    (ht : (y.index "title").as_str = some s)
    (hb : ∀ t, (y.index "baseUri").as_str = some t → ∃ p, pu t = .ok p)
    (hp : ∀ l, (y.index "protocols").as_vec = some l →
      ∃ ps, collectProtocols l = .ok ps) :
    ∃ d, RamlSpec.fromYaml π pu y = .ok d ∧ d.title = s := by
  obtain ⟨b, hB⟩ : ∃ b, baseUriField π pu y = .ok b := by
    cases ha : (y.index "baseUri").as_str with
    | none => exact ⟨none, baseUriField_none π pu y ha⟩
    | some t =>
      obtain ⟨p, hpok⟩ := hb t ha
      exact ⟨some ⟨t⟩, baseUriField_some_ok π pu y t p ha hpok⟩
  obtain ⟨ps, hP⟩ : ∃ ps, protocolsField y = .ok ps := by
    cases hv : (y.index "protocols").as_vec with
    | none => exact ⟨none, protocolsField_none y hv⟩
    | some l =>
      obtain ⟨s0, hs0⟩ := hp l hv
      exact ⟨some s0, protocolsField_some_ok y l s0 hv hs0⟩
  exact ⟨_, fromYaml_ok_build π pu y s b ps ht hB hP, rfl⟩

theorem title_extraction_exact_witness :
    ∃ d, RamlSpec.fromYaml Unit (fun _ => Except.ok ())
      (Yaml.hash [(Yaml.string "title", Yaml.string "Mobile Order API"),
        (Yaml.string "baseUri", Yaml.string "https://api.example.com/v1"),
        (Yaml.string "protocols", Yaml.array [Yaml.string "HTTP"])]) =
      Except.ok d ∧ d.title = "Mobile Order API" :=
  title_extraction_exact Unit (fun _ => Except.ok ()) _ "Mobile Order API"
    rfl (fun _ _ => ⟨(), rfl⟩)
    (fun l h => by
      injection h with h
      subst h
      exact ⟨_, rfl⟩)

/-- C2: for every successfully decoded, non-empty document list, if the
first document's `title` field is absent or not a string, extraction fails
with Field-Not-Found naming "title"; and `title` is the only field whose
absence is fatal (a document carrying nothing but a string `title`
extracts successfully, every other field defaulting to absent). -/
theorem missing_title_fatal :
    (∀ (π : Type) (pu : String → Except String π) (y : Yaml)
      (rest : List Yaml), (y.index "title").as_str = none →
      RamlSpec.fromYamlDocs π pu (y :: rest) =
        .error (.fieldNotFound "title")) ∧
    (∀ (π : Type) (pu : String → Except String π) (s : String),
      RamlSpec.fromYaml π pu
        (Yaml.hash [(Yaml.string "title", Yaml.string s)]) =
        .ok ⟨s, none, none, none, none⟩) := by
  constructor
  · intro π pu y rest ht
    show RamlSpec.fromYaml π pu y = _
    exact fromYaml_err_title π pu y ht
  · intro π pu s
    rfl

theorem missing_title_fatal_witness :
    RamlSpec.fromYamlDocs Unit (fun _ => Except.ok ())
      [Yaml.hash [(Yaml.string "description", Yaml.string "d")]] =
      Except.error (.fieldNotFound "title") :=
  missing_title_fatal.1 Unit (fun _ => Except.ok ()) _ [] rfl

/-- C3: the Protocol validator maps the string "HTTP" to `Http`, the string
"HTTPS" to `Https`, any other string `s` to Unsupported-Protocol carrying
`s`, and any non-string node to Invalid-Value carrying no text. -/
theorem protocol_validator_cases :
    (∀ s : String, Protocol.tryFrom (Yaml.string s) =
      if s = "HTTP" then .ok .http
      else if s = "HTTPS" then .ok .https
      else .error (.unsupportedProtocol s)) ∧
    (∀ y : Yaml, y.as_str = none →
      Protocol.tryFrom y = .error .invalidYamlValue) := by
  constructor
  · intro s
    rfl
  · intro y h
    cases y <;> simp_all [Yaml.as_str, Protocol.tryFrom]

theorem protocol_validator_cases_witness :
    Protocol.tryFrom (Yaml.integer 5) =
      Except.error ProtocolParseError.invalidYamlValue :=
  protocol_validator_cases.2 (Yaml.integer 5) rfl

/-- C4: for every text that the external URI parser accepts, `Uri::from_str`
succeeds and the stored text equals the input byte-for-byte (no
normalization or mutation); for every text it rejects, `from_str` fails
with Invalid-Syntax and no `Uri` is produced. -/
theorem uri_roundtrip_exact (π : Type) (pu : String → Except String π)
    (raw : String) :
    ((∃ p, pu raw = .ok p) →
      ∃ u, Uri.fromStr π pu raw = .ok u ∧ u.raw = raw) ∧
    (∀ e, pu raw = .error e →
      Uri.fromStr π pu raw = .error (.invalidSyntax e)) := by
  constructor
  · rintro ⟨p, hp⟩
    exact ⟨⟨raw⟩, by simp only [Uri.fromStr, hp], rfl⟩
  · intro e he
    simp only [Uri.fromStr, he]

theorem uri_roundtrip_exact_witness :
    (∃ u, Uri.fromStr Unit
        (fun s => if s = "a:b" then Except.ok () else Except.error "bad")
        "a:b" = Except.ok u ∧ u.raw = "a:b") ∧
    Uri.fromStr Unit
        (fun s => if s = "a:b" then Except.ok () else Except.error "bad")
        "not a uri" = Except.error (.invalidSyntax "bad") :=
  ⟨(uri_roundtrip_exact Unit
      (fun s => if s = "a:b" then Except.ok () else Except.error "bad")
      "a:b").1 ⟨(), rfl⟩,
    (uri_roundtrip_exact Unit
      (fun s => if s = "a:b" then Except.ok () else Except.error "bad")
      "not a uri").2 "bad" rfl⟩

/-- C5: every `Uri` obtained from a successful `from_str` re-derives its
structured view: `Uri::parsed` succeeds (the panic branch modelled by
`none` is unreachable), because the stored text is the very text the same
pure parser already accepted. -/
theorem uri_reparse_total (π : Type) (pu : String → Except String π)
    (raw : String) (u : Uri) (h : Uri.fromStr π pu raw = .ok u) :
    ∃ p, Uri.parsed π pu u = some p := by
  unfold Uri.fromStr at h
  cases hp : pu raw with
  | error e =>
    simp only [hp] at h
    cases h
  | ok p =>
    simp only [hp] at h
    injection h with h
    subst h
    exact ⟨p, by simp only [Uri.parsed, hp]⟩

theorem uri_reparse_total_witness :
    ∃ p, Uri.parsed Unit (fun _ => Except.ok ()) ⟨"a:b"⟩ = some p :=
  uri_reparse_total Unit (fun _ => Except.ok ()) "a:b" ⟨"a:b"⟩ rfl

lemma baseUriField_ok_of_valid (π : Type) (pu : String → Except String π)
    (y : Yaml)
    (hb : ∀ t, (y.index "baseUri").as_str = some t → ∃ p, pu t = .ok p) :
    ∃ b, baseUriField π pu y = .ok b := by
  cases ha : (y.index "baseUri").as_str with
  | none => exact ⟨none, baseUriField_none π pu y ha⟩
  | some t =>
    obtain ⟨p, hpok⟩ := hb t ha
    exact ⟨some ⟨t⟩, baseUriField_some_ok π pu y t p ha hpok⟩

lemma protocolsField_ok_of_valid (y : Yaml)
    (hp : ∀ l, (y.index "protocols").as_vec = some l →
      ∃ ps, collectProtocols l = .ok ps) :
    ∃ ps, protocolsField y = .ok ps := by
  cases hv : (y.index "protocols").as_vec with
  | none => exact ⟨none, protocolsField_none y hv⟩
  | some l =>
    obtain ⟨s0, hs0⟩ := hp l hv
    exact ⟨some s0, protocolsField_some_ok y l s0 hv hs0⟩

/-- C6: the protocols value of a successfully extracted document is a set
with duplicates collapsed — a protocol is a member exactly when some
element of the sequence converts to it; in particular the sequence
["HTTP", "HTTP", "HTTPS"] yields exactly the two members {Http, Https}. -/
theorem protocol_duplicates_collapsed :
    (∀ (π : Type) (pu : String → Except String π) (y : Yaml)
      (d : RamlSpec) (l : List Yaml),
      RamlSpec.fromYaml π pu y = .ok d →
      (y.index "protocols").as_vec = some l →
      ∃ s, d.protocols = some s ∧
        ∀ p, (p ∈ s ↔ ∃ z, z ∈ l ∧ Protocol.tryFrom z = .ok p)) ∧
    RamlSpec.fromYaml Unit (fun _ => Except.ok ())
      (Yaml.hash [(Yaml.string "title", Yaml.string "T"),
        (Yaml.string "protocols", Yaml.array [Yaml.string "HTTP",
          Yaml.string "HTTP", Yaml.string "HTTPS"])]) =
      .ok ⟨"T", none, none, none,
        some {Protocol.http, Protocol.https}⟩ := by
  constructor
  · intro π pu y d l hok hvec
    obtain ⟨-, -, -, -, hP⟩ := fromYaml_ok_inv π pu y d hok
    rcases protocolsField_ok_inv y d.protocols hP with
      ⟨hnone, -⟩ | ⟨l2, s, hl2, hs, hps⟩
    · rw [hvec] at hnone
      cases hnone
    · rw [hvec] at hl2
      injection hl2 with hl2
      subst hl2
      exact ⟨s, hps, fun p => collectProtocols_mem_ok l s hs p⟩
  · rfl

theorem protocol_duplicates_collapsed_witness :
    ∃ s, (RamlSpec.mk "T" none none none
        (some {Protocol.http, Protocol.https})).protocols = some s ∧
      ∀ p, (p ∈ s ↔ ∃ z, z ∈ [Yaml.string "HTTP", Yaml.string "HTTP",
        Yaml.string "HTTPS"] ∧ Protocol.tryFrom z = .ok p) :=
  protocol_duplicates_collapsed.1 Unit (fun _ => Except.ok ())
    (Yaml.hash [(Yaml.string "title", Yaml.string "T"),
      (Yaml.string "protocols", Yaml.array [Yaml.string "HTTP",
        Yaml.string "HTTP", Yaml.string "HTTPS"])])
    (RamlSpec.mk "T" none none none
      (some {Protocol.http, Protocol.https}))
    [Yaml.string "HTTP", Yaml.string "HTTP", Yaml.string "HTTPS"] rfl rfl

/-- C7, counterexample to the claim as stated: a decoded document whose
protocols sequence contains an element the validator rejects
(`Yaml::Integer(1)`), but which lacks a `title`; extraction fails with
Field-Not-Found("title"), not with Incorrect-Protocol, because the `title`
field of the struct literal is evaluated first. -/
theorem protocols_failure_masked_by_title_cex :
    Protocol.tryFrom (Yaml.integer 1) =
      Except.error ProtocolParseError.invalidYamlValue ∧
    ((Yaml.hash [(Yaml.string "protocols",
        Yaml.array [Yaml.integer 1])]).index "protocols").as_vec =
      some [Yaml.integer 1] ∧
    RamlSpec.fromYaml Unit (fun _ => Except.ok ())
      (Yaml.hash [(Yaml.string "protocols", Yaml.array [Yaml.integer 1])]) =
      Except.error (ParseError.fieldNotFound "title") ∧
    RamlSpec.fromYaml Unit (fun _ => Except.ok ())
      (Yaml.hash [(Yaml.string "protocols", Yaml.array [Yaml.integer 1])]) ≠
      Except.error (ParseError.incorrectProtocol
        ProtocolParseError.invalidYamlValue) :=
  ⟨rfl, rfl, rfl, fun h => ParseError.noConfusion (Except.error.inj h)⟩

/-- C7 as amended: provided extraction reaches the protocols field (the
`title` field is a string and the `baseUri` text, when a string, parses),
a present protocols sequence whose first rejected element yields error `e`
aborts the whole extraction with Incorrect-Protocol carrying `e`, and no
partial set is returned; an absent protocols field yields `none` and does
not make extraction fail. -/
theorem protocols_first_error_aborts :
    (∀ (π : Type) (pu : String → Except String π) (y : Yaml) (s : String)
      (l1 : List Yaml) (z : Yaml) (l2 : List Yaml) (e : ProtocolParseError),
      (y.index "title").as_str = some s →
      (∀ t, (y.index "baseUri").as_str = some t → ∃ p, pu t = .ok p) →
      (y.index "protocols").as_vec = some (l1 ++ z :: l2) →
      (∀ w ∈ l1, ∃ p, Protocol.tryFrom w = .ok p) →
      Protocol.tryFrom z = .error e →
      RamlSpec.fromYaml π pu y = .error (.incorrectProtocol e)) ∧
    (∀ (π : Type) (pu : String → Except String π) (y : Yaml) (s : String),
      (y.index "title").as_str = some s →
      (∀ t, (y.index "baseUri").as_str = some t → ∃ p, pu t = .ok p) →
      (y.index "protocols").as_vec = none →
      ∃ d, RamlSpec.fromYaml π pu y = .ok d ∧ d.protocols = none) := by
  constructor
  · intro π pu y s l1 z l2 e ht hb hv hok hz
    obtain ⟨b, hB⟩ := baseUriField_ok_of_valid π pu y hb
    have hc := collectProtocols_first_error l1 z l2 e hok hz
    have hPf := protocolsField_some_err y (l1 ++ z :: l2) e hv hc
    exact fromYaml_err_proto π pu y s b (.incorrectProtocol e) ht hB hPf
  · intro π pu y s ht hb hv
    obtain ⟨b, hB⟩ := baseUriField_ok_of_valid π pu y hb
    exact ⟨_, fromYaml_ok_build π pu y s b none ht hB
      (protocolsField_none y hv), rfl⟩

theorem protocols_first_error_aborts_witness :
    RamlSpec.fromYaml Unit (fun _ => Except.ok ())
      (Yaml.hash [(Yaml.string "title", Yaml.string "X"),
        (Yaml.string "protocols", Yaml.array [Yaml.string "HTTP",
          Yaml.string "FTP"])]) =
      Except.error (ParseError.incorrectProtocol
        (ProtocolParseError.unsupportedProtocol "FTP")) ∧
    (∃ d, RamlSpec.fromYaml Unit (fun _ => Except.ok ())
      (Yaml.hash [(Yaml.string "title", Yaml.string "X")]) =
      Except.ok d ∧ d.protocols = none) :=
  ⟨protocols_first_error_aborts.1 Unit (fun _ => Except.ok ()) _ "X"
      [Yaml.string "HTTP"] (Yaml.string "FTP") [] _ rfl
      (fun t h => Option.noConfusion h) rfl
      (fun w hw => by
        rcases List.mem_singleton.mp hw with rfl
        exact ⟨Protocol.http, rfl⟩) rfl,
    protocols_first_error_aborts.2 Unit (fun _ => Except.ok ()) _ "X" rfl
      (fun t h => Option.noConfusion h) rfl⟩

/-- C8: the `description` and `version` fields never cause extraction to
fail — a successful extraction stores exactly the string-typed lookup of
each (a string gives `some` of exactly that string, absence or a
non-string gives `none`), and success of extraction is fully determined by
the `title`, `baseUri` and `protocols` fields alone. -/
theorem optional_fields_never_fail (π : Type)
    (pu : String → Except String π) (y : Yaml) :
    (∀ d, RamlSpec.fromYaml π pu y = .ok d →
      d.description = (y.index "description").as_str ∧
      d.version = (y.index "version").as_str) ∧
    ((∃ d, RamlSpec.fromYaml π pu y = .ok d) ↔
      ((∃ s, (y.index "title").as_str = some s) ∧
       (∀ t, (y.index "baseUri").as_str = some t → ∃ p, pu t = .ok p) ∧
       (∀ l, (y.index "protocols").as_vec = some l →
         ∃ ps, collectProtocols l = .ok ps))) := by
  constructor
  · intro d h
    obtain ⟨-, h1, h2, -, -⟩ := fromYaml_ok_inv π pu y d h
    exact ⟨h1, h2⟩
  · constructor
    · rintro ⟨d, h⟩
      obtain ⟨ht, -, -, hB, hP⟩ := fromYaml_ok_inv π pu y d h
      refine ⟨⟨d.title, ht⟩, ?_, ?_⟩
      · intro t htt
        rcases baseUriField_ok_inv π pu y d.base_uri hB with
          ⟨hnone, -⟩ | ⟨t2, p, ht2, hp2, -⟩
        · rw [htt] at hnone
          cases hnone
        · rw [htt] at ht2
          injection ht2 with h3
          subst h3
          exact ⟨p, hp2⟩
      · intro l hl
        rcases protocolsField_ok_inv y d.protocols hP with
          ⟨hnone, -⟩ | ⟨l2, s, hl2, hs, -⟩
        · rw [hl] at hnone
          cases hnone
        · rw [hl] at hl2
          injection hl2 with h3
          subst h3
          exact ⟨s, hs⟩
    · rintro ⟨⟨s, ht⟩, hb, hp⟩
      obtain ⟨b, hB⟩ := baseUriField_ok_of_valid π pu y hb
      obtain ⟨ps, hP⟩ := protocolsField_ok_of_valid y hp
      exact ⟨_, fromYaml_ok_build π pu y s b ps ht hB hP⟩

theorem optional_fields_never_fail_witness :
    (RamlSpec.mk "T" none (some "v1") none none).description = none ∧
    (RamlSpec.mk "T" none (some "v1") none none).version = some "v1" :=
  (optional_fields_never_fail Unit (fun _ => Except.ok ())
    (Yaml.hash [(Yaml.string "title", Yaml.string "T"),
      (Yaml.string "description", Yaml.integer 3),
      (Yaml.string "version", Yaml.string "v1")])).1
    (RamlSpec.mk "T" none (some "v1") none none) rfl

/-- C9: when the `baseUri` field is absent or present but not a string
node, extraction never consults the URI parser (the outcome is the same
for any two parsers), a successful extraction stores `base_uri = none`,
and extraction never fails with Incorrect-URI. -/
theorem base_uri_nonstring_ignored (π1 π2 : Type)
    (pu1 : String → Except String π1) (pu2 : String → Except String π2)
    (y : Yaml) (h : (y.index "baseUri").as_str = none) :
    RamlSpec.fromYaml π1 pu1 y = RamlSpec.fromYaml π2 pu2 y ∧
    (∀ d, RamlSpec.fromYaml π1 pu1 y = .ok d → d.base_uri = none) ∧
    (∀ e, RamlSpec.fromYaml π1 pu1 y ≠ .error (.incorrectUri e)) := by
  have hb1 := baseUriField_none π1 pu1 y h
  have hb2 := baseUriField_none π2 pu2 y h
  refine ⟨?_, ?_, ?_⟩
  · cases ht : (y.index "title").as_str with
    | none =>
      rw [fromYaml_err_title π1 pu1 y ht, fromYaml_err_title π2 pu2 y ht]
    | some s =>
      cases hP : protocolsField y with
      | error e =>
        rw [fromYaml_err_proto π1 pu1 y s none e ht hb1 hP,
          fromYaml_err_proto π2 pu2 y s none e ht hb2 hP]
      | ok ps =>
        rw [fromYaml_ok_build π1 pu1 y s none ps ht hb1 hP,
          fromYaml_ok_build π2 pu2 y s none ps ht hb2 hP]
  · intro d hd
    obtain ⟨-, -, -, hB, -⟩ := fromYaml_ok_inv π1 pu1 y d hd
    rw [hb1] at hB
    injection hB with hB
    exact hB.symm
  · intro e hE
    cases ht : (y.index "title").as_str with
    | none =>
      rw [fromYaml_err_title π1 pu1 y ht] at hE
      exact ParseError.noConfusion (Except.error.inj hE)
    | some s =>
      cases hP : protocolsField y with
      | error e2 =>
        obtain ⟨pe, rfl⟩ := protocolsField_err_inv y e2 hP
        rw [fromYaml_err_proto π1 pu1 y s none _ ht hb1 hP] at hE
        exact ParseError.noConfusion (Except.error.inj hE)
      | ok ps =>
        rw [fromYaml_ok_build π1 pu1 y s none ps ht hb1 hP] at hE
        cases hE

theorem base_uri_nonstring_ignored_witness :
    (RamlSpec.mk "T" none none none none).base_uri = none :=
  (base_uri_nonstring_ignored Unit Unit (fun _ => Except.ok ())
    (fun _ => Except.error "x")
    (Yaml.hash [(Yaml.string "title", Yaml.string "T"),
      (Yaml.string "baseUri", Yaml.integer 3)]) rfl).2.1
    (RamlSpec.mk "T" none none none none) rfl

/-- C10: `from_reader` binds the `Result` of `read_to_string` to `_` and
discards it, so the outcome depends only on the text read into the buffer,
never on the I/O error: the same text with and without an I/O failure
extracts identically, and a failing reader can end in the File-Is-Empty
failure or even in a successful document — never in an I/O error (the
error taxonomy `ParseError` has no I/O class at all). -/
theorem reader_io_error_discarded :
    (∀ (π : Type) (pu : String → Except String π)
      (loadFromStr : String → Except String (List Yaml)) (r : Reader),
      RamlSpec.fromReader π pu loadFromStr r =
        RamlSpec.fromReader π pu loadFromStr ⟨r.text, none⟩) ∧
    (∃ loadFromStr r, r.ioError = some "io failure" ∧
      RamlSpec.fromReader Unit (fun _ => Except.ok ()) loadFromStr r =
        .error .fileIsEmpty) ∧
    (∃ loadFromStr r d, r.ioError = some "io failure" ∧
      RamlSpec.fromReader Unit (fun _ => Except.ok ()) loadFromStr r =
        .ok d) :=
  ⟨fun _ _ _ _ => rfl,
    ⟨fun _ => .ok [], ⟨"", some "io failure"⟩, rfl, rfl⟩,
    ⟨fun _ => .ok [Yaml.hash [(Yaml.string "title", Yaml.string "T")]],
      ⟨"title: T", some "io failure"⟩,
      ⟨"T", none, none, none, none⟩, rfl, rfl⟩⟩
